import Mathlib

/-!
Shallow embedding of the km232 keyboard/mouse relay tool (`source/main.cpp`).

The program reads console input events and relays them to a KM232/ASC232
serial encoder.  We embed the pure input-to-protocol translation core:

* `KeyToMakeCode` — the 256-entry virtual-key → device make-code table
  (`main.cpp`, `KeyToMakeCode`);
* `keyDownStep` / `keyUpStep` / `KeyEventProc` — the rollover tracker that
  maintains the list of currently-down keys (`main.cpp`, `KeyEventProc`;
  the global `std::vector<WORD> keys`);
* `FocusEventProc` — focus-loss handling (`main.cpp`, `FocusEventProc`);
* `MouseButtonProc` / `MouseMoveLoop` — the mouse button latch and the
  unit-step relative-motion loop (`main.cpp`, `MouseEventProc`);
* `InitHandshake` / `handshakeReport` — the bring-up handshake of
  `InitSerialPort` in the active `ASC232` build configuration.

`SerialSend` is modelled by an oracle `Nat → Int` giving the result of the
n-th `SerialSend` call (the returned reply byte, or any negative value for
a timeout/error, exactly as the C function's `int` result).  A serial
emission by the key tracker is recorded as a pair `(id, isMake)`; the byte
actually written for such an emission is `emissionByte` of the pair, which
keeps make/break counts attributable to the key identifier that caused
them.  All other handlers emit plain bytes.
-/

namespace KM232

/-- Serial command byte `USB_BufferClear` (0x38), `main.cpp` line 27. -/
def USB_BufferClear : Nat := 0x38

/-- Serial command byte `USB_MouseLeft` (0x42), `main.cpp` line 29. -/
def USB_MouseLeft : Nat := 0x42

/-- Serial command byte `USB_MouseRight` (0x43), `main.cpp` line 30. -/
def USB_MouseRight : Nat := 0x43

/-- Serial command byte `USB_MouseUp` (0x44), `main.cpp` line 31. -/
def USB_MouseUp : Nat := 0x44

/-- Serial command byte `USB_MouseDown` (0x45), `main.cpp` line 32. -/
def USB_MouseDown : Nat := 0x45

/-- Serial command byte `USB_MouseLeftButton` (0x49), `main.cpp` line 34. -/
def USB_MouseLeftButton : Nat := 0x49

/-- Serial command byte `USB_StatusLEDRead` (0x7F), `main.cpp` line 44. -/
def USB_StatusLEDRead : Nat := 0x7F

/-- Break-code offset `USB_BREAK` (128), `main.cpp` line 51. -/
def USB_BREAK : Nat := 128

/-- The 256-entry `static const char table` of `KeyToMakeCode`
(`main.cpp` lines 499-757), in source order: entry `i` is the device make
code for virtual-key code `i`, `0` meaning "no translation available". -/
def kmMakeCodeTable : List Nat := [
  0, 0, 0, 0, 0, 0, 0, 0, 15, 16, 0, 0, 0, 43, 0, 0,
  44, 58, 60, 0, 30, 0, 0, 0, 0, 0, 0, 110, 0, 0, 0, 0,
  61, 85, 86, 81, 80, 79, 83, 89, 84, 0, 0, 0, 0, 75, 76, 0,
  11, 2, 3, 4, 5, 6, 7, 8, 9, 10, 0, 0, 0, 0, 0, 0,
  0, 31, 50, 48, 33, 19, 34, 35, 36, 24, 37, 38, 39, 52, 51, 25,
  26, 17, 20, 32, 21, 23, 49, 18, 47, 22, 46, 70, 71, 0, 0, 0,
  99, 93, 98, 103, 92, 97, 102, 91, 96, 101, 100, 106, 0, 105, 104, 95,
  112, 113, 114, 115, 116, 117, 118, 119, 120, 121, 122, 124, 0, 0, 0, 0,
  0, 0, 0, 0, 0, 0, 0, 0, 0, 0, 0, 0, 0, 0, 0, 0,
  90, 125, 0, 0, 0, 0, 0, 0, 0, 0, 0, 0, 0, 0, 0, 0,
  44, 57, 58, 64, 60, 62, 0, 0, 0, 0, 0, 0, 0, 0, 0, 0,
  0, 0, 0, 0, 0, 0, 0, 0, 0, 0, 40, 13, 53, 12, 54, 55,
  1, 0, 0, 0, 0, 0, 0, 0, 0, 0, 0, 0, 0, 0, 0, 0,
  0, 0, 0, 0, 0, 0, 0, 0, 0, 0, 0, 27, 29, 28, 41, 0,
  0, 0, 0, 0, 0, 0, 0, 0, 0, 0, 0, 0, 0, 0, 0, 0,
  0, 0, 0, 0, 0, 0, 0, 0, 0, 0, 0, 0, 0, 0, 0, 0]

/-- `KeyToMakeCode` (`main.cpp` line 497): table lookup at `vkCode & 0xFF`. -/
def KeyToMakeCode (vkCode : Nat) : Nat := kmMakeCodeTable.getD (vkCode % 256) 0

/-- A key input event, as consumed by `KeyEventProc`: `ker.bKeyDown` true
gives `down ker.wVirtualKeyCode`, false gives `up ker.wVirtualKeyCode`. -/
inductive KEvent where
  | down (id : Nat)
  | up (id : Nat)
deriving DecidableEq

/-- One serial emission of the key tracker, tagged with the key identifier
that caused it: `(id, true)` is the make sent for `id`, `(id, false)` the
break.  The byte on the wire is `emissionByte`. -/
def emissionByte (e : Nat × Bool) : Nat :=
  if e.2 then KeyToMakeCode e.1 else KeyToMakeCode e.1 + USB_BREAK

/-- The bytes actually written for a list of tagged key emissions. -/
def sentBytes (tr : List (Nat × Bool)) : List Nat := tr.map emissionByte

/-- The `ker.bKeyDown` branch of `KeyEventProc` (`main.cpp` lines 233-258):
if the key is already in the `keys` vector do nothing, otherwise append it
and, when its make code is non-zero, send the make code. -/
def keyDownStep (keys : List Nat) (id : Nat) : List Nat × List (Nat × Bool) :=
  if id ∈ keys then (keys, [])
  else (keys ++ [id], if KeyToMakeCode id = 0 then [] else [(id, true)])

/-- The key-up branch of `KeyEventProc` (`main.cpp` lines 259-281): scan
`keys` for the first occurrence of the key; if found, erase it and, when
its make code is non-zero, send the break code (`make + USB_BREAK`). -/
def keyUpStep : List Nat → Nat → List Nat × List (Nat × Bool)
  | [], _ => ([], [])
  | k :: ks, id =>
    if k = id then (ks, if KeyToMakeCode id = 0 then [] else [(id, false)])
    else ((k :: (keyUpStep ks id).1), (keyUpStep ks id).2)

/-- `KeyEventProc` (`main.cpp` lines 228-299) acting on the `keys` list:
returns the new list and the tagged emissions of this event. -/
def KeyEventProc (keys : List Nat) : KEvent → List Nat × List (Nat × Bool)
  | .down id => keyDownStep keys id
  | .up id => keyUpStep keys id

/-- Process a sequence of key events, accumulating all emissions. -/
def runKeyEvents (keys : List Nat) : List KEvent → List Nat × List (Nat × Bool)
  | [] => (keys, [])
  | e :: es =>
    ((runKeyEvents (KeyEventProc keys e).1 es).1,
     (KeyEventProc keys e).2 ++ (runKeyEvents (KeyEventProc keys e).1 es).2)

/-- Number of make commands emitted for identifier `id` in a trace. -/
def makesFor (id : Nat) (tr : List (Nat × Bool)) : Nat :=
  tr.countP (fun e => e.1 == id && e.2)

/-- Number of break commands emitted for identifier `id` in a trace. -/
def breaksFor (id : Nat) (tr : List (Nat × Bool)) : Nat :=
  tr.countP (fun e => e.1 == id && !e.2)

/-- The last down/up transition for identifier `id` in an event sequence:
`some true` if it is a down, `some false` if an up, `none` if `id` never
occurs. -/
def lastTransition (id : Nat) : List KEvent → Option Bool
  | [] => none
  | e :: es =>
    match lastTransition id es with
    | some b => some b
    | none =>
      match e with
      | .down j => if j = id then some true else none
      | .up j => if j = id then some false else none

/-- `FocusEventProc` (`main.cpp` lines 183-224), serial-relevant part: on
losing focus (`bSetFocus` false), if the `keys` list is non-empty it is
cleared and a single `USB_BufferClear` is sent; otherwise (empty list, or
focus gained) nothing happens.  Returns the new list and bytes sent. -/
def FocusEventProc (keys : List Nat) (bSetFocus : Bool) : List Nat × List Nat :=
  if bSetFocus then (keys, [])
  else if keys.length ≠ 0 then ([], [USB_BufferClear]) else (keys, [])

/-- The `static` mouse-handler state of `MouseEventProc` (`main.cpp`
lines 305-307): `currentMouse` (the reference point), `mouseTrack`, and
`button0`. -/
structure MouseState where
  currentMouseX : Int
  currentMouseY : Int
  mouseTrack : Bool
  button0 : Bool
deriving DecidableEq

/-- Windows console flag `FROM_LEFT_1ST_BUTTON_PRESSED` (0x0001). -/
def FROM_LEFT_1ST_BUTTON_PRESSED : Nat := 0x1

/-- Windows console flag `RIGHTMOST_BUTTON_PRESSED` (0x0002). -/
def RIGHTMOST_BUTTON_PRESSED : Nat := 0x2

/-- The button-state branch of `MouseEventProc` (`main.cpp` lines 325-354,
`dwEventFlags = 0`): if the primary-button bit is set, send the make code
and latch `button0`; else if `button0` was latched, clear it and send the
break code.  The rightmost ("tracking") button bit sets `mouseTrack` and
resets the reference point to the current cursor position; when clear,
`mouseTrack` is cleared.  Returns the new state and the bytes sent. -/
def MouseButtonProc (s : MouseState) (cursorX cursorY : Int) (dwButtonState : Nat) :
    MouseState × List Nat :=
  let afterB0 : Bool × List Nat :=
    if dwButtonState &&& FROM_LEFT_1ST_BUTTON_PRESSED ≠ 0 then (true, [USB_MouseLeftButton])
    else if s.button0 then (false, [USB_MouseLeftButton + USB_BREAK])
    else (s.button0, [])
  if dwButtonState &&& RIGHTMOST_BUTTON_PRESSED ≠ 0 then
    (⟨cursorX, cursorY, true, afterB0.1⟩, afterB0.2)
  else
    (⟨s.currentMouseX, s.currentMouseY, false, afterB0.1⟩, afterB0.2)

/-- One unit step of `currentMouse` toward the cursor on one axis
(`currentMouse.x++` / `currentMouse.x--` in `main.cpp` lines 375/380 and
their y counterparts). -/
def stepToward (t c : Int) : Int := if t > c then c + 1 else if t < c then c - 1 else c

/-- The command bytes sent by one axis of one iteration of the move loop:
`inc` when the target exceeds the reference, `dec` when it is below it,
nothing when the axis already agrees. -/
def axisCmds (t c : Int) (inc dec : Nat) : List Nat :=
  if t > c then [inc] else if t < c then [dec] else []

/-- How many `SerialSend` calls one axis of one iteration performs. -/
def axisSends (t c : Int) : Nat := if t = c then 0 else 1

/-- Result of the relative-motion loop: final reference point, bytes sent,
and the index of the next `SerialSend` call (oracle position). -/
structure MoveResult where
  cm : Int × Int
  sent : List Nat
  k : Nat
deriving DecidableEq

/-- The `MOUSE_MOVED` translation loop of `MouseEventProc` (`main.cpp`
lines 371-400): while the cursor `(px, py)` differs from the reference
`(cmx, cmy)`, step the x axis one unit toward the cursor and send the
corresponding command, break if its `SerialSend` result is negative, then
do the same for the y axis.  `res` is the value of the loop's `result`
variable on entry to the iteration (loop-carried; on the very first
iteration the C variable is uninitialized, so the initial `res` is an
arbitrary parameter), and `oracle n` is the result of the n-th
`SerialSend` call, `k` the index of the next one. -/
def MouseMoveLoop (oracle : Nat → Int) (px py cmx cmy res : Int) (k : Nat) : MoveResult :=
  if h : px = cmx ∧ py = cmy then ⟨(cmx, cmy), [], k⟩
  else
    let resx : Int := if px = cmx then res else oracle k
    let kx : Nat := k + axisSends px cmx
    if resx < 0 then
      ⟨(stepToward px cmx, cmy), axisCmds px cmx USB_MouseRight USB_MouseLeft, kx⟩
    else
      let resy : Int := if py = cmy then resx else oracle kx
      let ky : Nat := kx + axisSends py cmy
      if resy < 0 then
        ⟨(stepToward px cmx, stepToward py cmy),
         axisCmds px cmx USB_MouseRight USB_MouseLeft ++
           axisCmds py cmy USB_MouseDown USB_MouseUp,
         ky⟩
      else
        ⟨(MouseMoveLoop oracle px py (stepToward px cmx) (stepToward py cmy) resy ky).cm,
         axisCmds px cmx USB_MouseRight USB_MouseLeft ++
           axisCmds py cmy USB_MouseDown USB_MouseUp ++
           (MouseMoveLoop oracle px py (stepToward px cmx) (stepToward py cmy) resy ky).sent,
         (MouseMoveLoop oracle px py (stepToward px cmx) (stepToward py cmy) resy ky).k⟩
termination_by ((px - cmx).natAbs + (py - cmy).natAbs)
decreasing_by
  all_goals
    simp only [stepToward]
    split_ifs <;> omega

/-- The `MOUSE_MOVED` branch of `MouseEventProc` (`main.cpp` lines
358-403): the translation loop runs only when `mouseTrack` is set, and
updates the reference point to the loop's final value. -/
def MouseMoveProc (oracle : Nat → Int) (s : MouseState) (px py res : Int) (k : Nat) :
    MouseState × List Nat :=
  if s.mouseTrack then
    (⟨(MouseMoveLoop oracle px py s.currentMouseX s.currentMouseY res k).cm.1,
      (MouseMoveLoop oracle px py s.currentMouseX s.currentMouseY res k).cm.2,
      s.mouseTrack, s.button0⟩,
     (MouseMoveLoop oracle px py s.currentMouseX s.currentMouseY res k).sent)
  else (s, [])

/-- Classification printed by the handshake of `InitSerialPort`. -/
inductive HandshakeReport where
  | live
  | silent
  | noResponse
deriving DecidableEq

/-- The bring-up handshake of `InitSerialPort` (`main.cpp` lines
1066-1093) in the active `ASC232` build: send `USB_BufferClear`; if its
result is non-negative, send `USB_StatusLEDRead` (the `KM232`-only
`USB_MouseFast` step is compiled out).  `oracle n` is the result of the
n-th `SerialSend`.  Returns the commands sent and the final `result`. -/
def InitHandshake (oracle : Nat → Int) : List Nat × Int :=
  if 0 ≤ oracle 0 then ([USB_BufferClear, USB_StatusLEDRead], oracle 1)
  else ([USB_BufferClear], oracle 0)

/-- How `InitSerialPort` classifies the final handshake `result`
(`main.cpp` lines 1079-1093): non-negative and within `[0x30, 0x37]`
prints the "live" banner; non-negative but out of range prints nothing;
negative prints "No Response". -/
def handshakeReport (result : Int) : HandshakeReport :=
  if 0 ≤ result then
    if 0x30 ≤ result ∧ result ≤ 0x37 then .live else .silent
  else .noResponse

/-! Helper lemmas about the key tracker. -/

lemma makesFor_nil (id : Nat) : makesFor id [] = 0 := rfl

lemma breaksFor_nil (id : Nat) : breaksFor id [] = 0 := rfl

lemma makesFor_append (id : Nat) (a b : List (Nat × Bool)) :
    makesFor id (a ++ b) = makesFor id a + makesFor id b :=
  List.countP_append _ _ _

lemma breaksFor_append (id : Nat) (a b : List (Nat × Bool)) :
    breaksFor id (a ++ b) = breaksFor id a + breaksFor id b :=
  List.countP_append _ _ _

lemma makesFor_single_make (id j : Nat) :
    makesFor id [(j, true)] = if j = id then 1 else 0 := by
  simp [makesFor, List.countP_cons]

lemma makesFor_single_brk (id j : Nat) : makesFor id [(j, false)] = 0 := by
  simp [makesFor, List.countP_cons]

lemma breaksFor_single_make (id j : Nat) : breaksFor id [(j, true)] = 0 := by
  simp [breaksFor, List.countP_cons]

lemma breaksFor_single_brk (id j : Nat) :
    breaksFor id [(j, false)] = if j = id then 1 else 0 := by
  simp [breaksFor, List.countP_cons]

lemma keyUpStep_fst_erase (ks : List Nat) (id : Nat) :
    (keyUpStep ks id).1 = ks.erase id := by
  induction ks with
  | nil => rfl
  | cons k ks ih =>
    by_cases h : k = id
    · subst h; simp [keyUpStep]
    · simp [keyUpStep, h, ih, List.erase_cons]

lemma keyUpStep_snd (ks : List Nat) (id : Nat) :
    (keyUpStep ks id).2 =
      if id ∈ ks then (if KeyToMakeCode id = 0 then [] else [(id, false)]) else [] := by
  induction ks with
  | nil => rfl
  | cons k ks ih =>
    by_cases h : k = id
    · subst h; simp [keyUpStep]
    · have h' : ¬ id = k := fun hh => h hh.symm
      simp [keyUpStep, h, ih, List.mem_cons, h']

lemma mem_keyDownStep_self (keys : List Nat) (id : Nat) :
    id ∈ (keyDownStep keys id).1 := by
  by_cases h : id ∈ keys <;> simp [keyDownStep, h]

lemma keyDownStep_of_mem (keys : List Nat) (id : Nat) (h : id ∈ keys) :
    keyDownStep keys id = (keys, []) := by
  simp [keyDownStep, h]

/-- One `KeyEventProc` step preserves `Nodup`, changes membership exactly
at the event's own identifier, and keeps the make/break balance for every
identifier with a non-zero make code. -/
lemma KeyEventProc_step (keys : List Nat) (hnd : keys.Nodup) (e : KEvent) (id : Nat) :
    (KeyEventProc keys e).1.Nodup ∧
    ((id ∈ (KeyEventProc keys e).1) ↔
      (match e with
       | .down j => id = j ∨ id ∈ keys
       | .up j => id ≠ j ∧ id ∈ keys)) ∧
    (KeyToMakeCode id ≠ 0 →
      makesFor id (KeyEventProc keys e).2 + (if id ∈ keys then 1 else 0)
        = breaksFor id (KeyEventProc keys e).2
          + (if id ∈ (KeyEventProc keys e).1 then 1 else 0)) := by
  cases e with
  | down j =>
    by_cases hj : j ∈ keys
    · refine ⟨by simpa [KeyEventProc, keyDownStep, hj] using hnd, ?_, ?_⟩
      · simp only [KeyEventProc, keyDownStep, if_pos hj]
        constructor
        · exact fun h => Or.inr h
        · rintro (rfl | h) <;> [exact hj; exact h]
      · intro _; simp [KeyEventProc, keyDownStep, hj, makesFor, breaksFor]
    · have hmem : ∀ x : Nat, x ∈ keys ++ [j] ↔ x = j ∨ x ∈ keys := by
        intro x; simp [List.mem_append, or_comm]
      refine ⟨?_, ?_, ?_⟩
      · simp [KeyEventProc, keyDownStep, hj, List.nodup_append, hnd]
      · simp only [KeyEventProc, keyDownStep, if_neg hj]
        exact hmem id
      · intro hc
        by_cases hij : id = j
        · subst hij
          have hcz : ¬ KeyToMakeCode id = 0 := hc
          simp [KeyEventProc, keyDownStep, hj, hcz, makesFor_single_make,
            breaksFor_single_make, hmem, hj]
        · have hji : ¬ j = id := fun h => hij h.symm
          by_cases hcz : KeyToMakeCode j = 0 <;>
            simp [KeyEventProc, keyDownStep, hj, hcz, makesFor_single_make,
              breaksFor_single_make, hmem, hij, hji, makesFor, breaksFor]
  | up j =>
    have hfst : (KeyEventProc keys (.up j)).1 = keys.erase j := keyUpStep_fst_erase keys j
    have hsnd : (KeyEventProc keys (.up j)).2 =
        if j ∈ keys then (if KeyToMakeCode j = 0 then [] else [(j, false)]) else [] :=
      keyUpStep_snd keys j
    refine ⟨?_, ?_, ?_⟩
    · rw [hfst]; exact hnd.erase j
    · rw [hfst]; exact hnd.mem_erase_iff
    · intro hc
      rw [hfst, hsnd]
      by_cases hij : id = j
      · subst hij
        by_cases hj : id ∈ keys
        · have hcz : ¬ KeyToMakeCode id = 0 := hc
          simp [hj, hcz, makesFor_single_brk, breaksFor_single_brk,
            hnd.not_mem_erase, hnd.mem_erase_iff]
        · simp [hj, List.erase_of_not_mem hj, makesFor, breaksFor]
      · have hji : ¬ j = id := fun h => hij h.symm
        have hiff : id ∈ keys.erase j ↔ id ∈ keys := List.mem_erase_of_ne hij
        by_cases hj : j ∈ keys <;>
          by_cases hcz : KeyToMakeCode j = 0 <;>
            simp [hj, hcz, makesFor_single_brk, breaksFor_single_brk, hji, hiff,
              makesFor, breaksFor]

lemma runKeyEvents_cons (keys : List Nat) (e : KEvent) (es : List KEvent) :
    runKeyEvents keys (e :: es) =
      ((runKeyEvents (KeyEventProc keys e).1 es).1,
       (KeyEventProc keys e).2 ++ (runKeyEvents (KeyEventProc keys e).1 es).2) := rfl

/-- Main invariant of the rollover tracker over any event sequence from a
duplicate-free list: the list stays duplicate-free, membership of an
identifier is decided by its last transition, and for identifiers with a
non-zero make code the make/break balance equals the membership change. -/
lemma runKeyEvents_invariant (id : Nat) (evs : List KEvent) :
    ∀ keys : List Nat, keys.Nodup →
      (runKeyEvents keys evs).1.Nodup ∧
      ((id ∈ (runKeyEvents keys evs).1) ↔
        (match lastTransition id evs with
         | some b => b = true
         | none => id ∈ keys)) ∧
      (KeyToMakeCode id ≠ 0 →
        makesFor id (runKeyEvents keys evs).2 + (if id ∈ keys then 1 else 0)
          = breaksFor id (runKeyEvents keys evs).2
            + (if id ∈ (runKeyEvents keys evs).1 then 1 else 0)) := by
  induction evs with
  | nil =>
    intro keys hnd
    refine ⟨hnd, ?_, ?_⟩ <;> simp [runKeyEvents, lastTransition, makesFor, breaksFor]
  | cons e es ih =>
    intro keys hnd
    obtain ⟨hnd1, hmem1, hcnt1⟩ := KeyEventProc_step keys hnd e id
    obtain ⟨hndF, hmemF, hcntF⟩ := ih (KeyEventProc keys e).1 hnd1
    rw [runKeyEvents_cons]
    refine ⟨hndF, ?_, ?_⟩
    · rcases hlt : lastTransition id es with _ | b
      · rw [hlt] at hmemF
        simp only [lastTransition, hlt]
        rw [hmemF, hmem1]
        cases e with
        | down j =>
          by_cases hj : j = id
          · subst hj; simp
          · have hij : ¬ id = j := fun h => hj h.symm
            simp [hj, hij]
        | up j =>
          by_cases hj : j = id
          · subst hj; simp
          · have hij : ¬ id = j := fun h => hj h.symm
            simp [hj, hij]
      · rw [hlt] at hmemF
        simp only [lastTransition, hlt]
        exact hmemF
    · intro hc
      have h1 := hcnt1 hc
      have hF := hcntF hc
      simp only [makesFor_append, breaksFor_append]
      omega

/-- While a key stays in the list and no up event for it arrives, no make
is emitted for it and it remains in the list. -/
lemma runKeyEvents_held (id : Nat) (evs : List KEvent) :
    ∀ keys : List Nat, id ∈ keys → KEvent.up id ∉ evs →
      id ∈ (runKeyEvents keys evs).1 ∧ makesFor id (runKeyEvents keys evs).2 = 0 := by
  induction evs with
  | nil =>
    intro keys hmem _
    exact ⟨hmem, rfl⟩
  | cons e es ih =>
    intro keys hmem hnup
    have hnup' : KEvent.up id ∉ es := fun h => hnup (List.mem_cons_of_mem _ h)
    have hstep : id ∈ (KeyEventProc keys e).1 ∧ makesFor id (KeyEventProc keys e).2 = 0 := by
      cases e with
      | down j =>
        by_cases hj : j ∈ keys
        · simp [KeyEventProc, keyDownStep, hj, hmem, makesFor]
        · have hij : ¬ j = id := by
            intro h; subst h; exact hj hmem
          by_cases hcz : KeyToMakeCode j = 0 <;>
            simp [KeyEventProc, keyDownStep, hj, hcz, hmem, makesFor_single_make, hij,
              makesFor]
      | up j =>
        have hij : id ≠ j := by
          intro h; subst h; exact hnup (List.mem_cons_self _ _)
        constructor
        · simp only [KeyEventProc]
          rw [keyUpStep_fst_erase]
          exact (List.mem_erase_of_ne hij).2 hmem
        · simp only [KeyEventProc]
          rw [keyUpStep_snd]
          by_cases hj : j ∈ keys <;> by_cases hcz : KeyToMakeCode j = 0 <;>
            simp [hj, hcz, makesFor_single_brk, makesFor]
    obtain ⟨hm, hz⟩ := hstep
    obtain ⟨hm', hz'⟩ := ih (KeyEventProc keys e).1 hm hnup'
    rw [runKeyEvents_cons]
    exact ⟨hm', by simp [makesFor_append, hz, hz']⟩

/-! Claim theorems for the key tracker and the make-code table. -/

/-- C1: for every finite key-event sequence processed by `KeyEventProc`
from the empty key list and every identifier with a non-zero make code,
the number of makes emitted for it never exceeds the number of breaks for
it by more than 1, the identifier is in the list iff its last transition
was a down, and the list never holds a duplicate. -/
theorem km_key_rollover_balanced (evs : List KEvent) (id : Nat)
    (h : KeyToMakeCode id ≠ 0) :
    makesFor id (runKeyEvents [] evs).2 ≤ breaksFor id (runKeyEvents [] evs).2 + 1 ∧
    ((id ∈ (runKeyEvents [] evs).1) ↔ lastTransition id evs = some true) ∧
    (runKeyEvents [] evs).1.Nodup := by
  obtain ⟨hnd, hmem, hcnt⟩ := runKeyEvents_invariant id evs [] List.nodup_nil
  refine ⟨?_, ?_, hnd⟩
  · have hc := hcnt h
    simp only [List.not_mem_nil, if_false] at hc
    split_ifs at hc <;> omega
  · rcases hlt : lastTransition id evs with _ | b
    · rw [hlt] at hmem
      simp at hmem
      simp [hlt, hmem]
    · rw [hlt] at hmem
      simp at hmem
      simp [hlt, hmem]

/-- Witness for C1 at the concrete sequence down 65, up 65, down 65. -/
theorem km_key_rollover_balanced_witness :
    KeyToMakeCode 65 ≠ 0 ∧
    (makesFor 65 (runKeyEvents [] [KEvent.down 65, KEvent.up 65, KEvent.down 65]).2 ≤
       breaksFor 65 (runKeyEvents [] [KEvent.down 65, KEvent.up 65, KEvent.down 65]).2 + 1 ∧
     ((65 ∈ (runKeyEvents [] [KEvent.down 65, KEvent.up 65, KEvent.down 65]).1) ↔
        lastTransition 65 [KEvent.down 65, KEvent.up 65, KEvent.down 65] = some true) ∧
     (runKeyEvents [] [KEvent.down 65, KEvent.up 65, KEvent.down 65]).1.Nodup) :=
  ⟨by decide, km_key_rollover_balanced [KEvent.down 65, KEvent.up 65, KEvent.down 65] 65
    (by decide)⟩

/-- C2 counterexample: with key 65 already in the pressed list, processing
`KeyDown 65` twice emits zero make commands for 65, not exactly one. -/
theorem km_keydown_idempotent_cex :
    ¬ makesFor 65 ((keyDownStep [65] 65).2 ++ (keyDownStep (keyDownStep [65] 65).1 65).2)
        = 1 := by decide

/-- C2 as amended: processing `KeyDown k` twice with no intervening
`KeyUp k` (arbitrary other key events in between) emits at most one make
for `k` — exactly one when `k` was not already pressed and has a non-zero
make code — and the second `KeyDown` changes neither the list nor the
serial output. -/
theorem km_keydown_idempotent (keys : List Nat) (k : Nat) (mid : List KEvent)
    (hmid : KEvent.up k ∉ mid) :
    (keyDownStep (runKeyEvents (keyDownStep keys k).1 mid).1 k).2 = [] ∧
    (keyDownStep (runKeyEvents (keyDownStep keys k).1 mid).1 k).1
      = (runKeyEvents (keyDownStep keys k).1 mid).1 ∧
    makesFor k ((keyDownStep keys k).2 ++ (runKeyEvents (keyDownStep keys k).1 mid).2
        ++ (keyDownStep (runKeyEvents (keyDownStep keys k).1 mid).1 k).2) ≤ 1 ∧
    (k ∉ keys → KeyToMakeCode k ≠ 0 →
      makesFor k ((keyDownStep keys k).2 ++ (runKeyEvents (keyDownStep keys k).1 mid).2
        ++ (keyDownStep (runKeyEvents (keyDownStep keys k).1 mid).1 k).2) = 1) := by
  have h1 : k ∈ (keyDownStep keys k).1 := mem_keyDownStep_self keys k
  obtain ⟨hm, hz⟩ := runKeyEvents_held k mid (keyDownStep keys k).1 h1 hmid
  have h2 : keyDownStep (runKeyEvents (keyDownStep keys k).1 mid).1 k
      = ((runKeyEvents (keyDownStep keys k).1 mid).1, []) :=
    keyDownStep_of_mem _ k hm
  have hfirst : makesFor k (keyDownStep keys k).2
      = if k ∈ keys then 0 else (if KeyToMakeCode k = 0 then 0 else 1) := by
    by_cases hk : k ∈ keys
    · simp [keyDownStep, hk, makesFor]
    · by_cases hc : KeyToMakeCode k = 0 <;>
        simp [keyDownStep, hk, hc, makesFor, List.countP_cons]
  refine ⟨by rw [h2], by rw [h2], ?_, ?_⟩
  · rw [h2]
    simp only [makesFor_append, hz, hfirst, makesFor_nil]
    split_ifs <;> simp
  · intro hk hc
    rw [h2]
    simp only [makesFor_append, hz, hfirst, makesFor_nil]
    simp [hk, hc]

/-- Witness for C2 (amended) at `keys = []`, `k = 65`, one intervening
`KeyDown 66`. -/
theorem km_keydown_idempotent_witness :
    KEvent.up 65 ∉ [KEvent.down 66] ∧
    ((keyDownStep (runKeyEvents (keyDownStep [] 65).1 [KEvent.down 66]).1 65).2 = [] ∧
     (keyDownStep (runKeyEvents (keyDownStep [] 65).1 [KEvent.down 66]).1 65).1
       = (runKeyEvents (keyDownStep [] 65).1 [KEvent.down 66]).1 ∧
     makesFor 65 ((keyDownStep [] 65).2
         ++ (runKeyEvents (keyDownStep [] 65).1 [KEvent.down 66]).2
         ++ (keyDownStep (runKeyEvents (keyDownStep [] 65).1 [KEvent.down 66]).1 65).2) ≤ 1 ∧
     (65 ∉ ([] : List Nat) → KeyToMakeCode 65 ≠ 0 →
       makesFor 65 ((keyDownStep [] 65).2
         ++ (runKeyEvents (keyDownStep [] 65).1 [KEvent.down 66]).2
         ++ (keyDownStep (runKeyEvents (keyDownStep [] 65).1 [KEvent.down 66]).1 65).2) = 1)) :=
  ⟨by decide, km_keydown_idempotent [] 65 [KEvent.down 66] (by decide)⟩

/-- C3: on focus loss with a non-empty pressed list, the list empties and
exactly one `USB_BufferClear` is sent; with an empty list nothing is sent;
on focus gain nothing changes and nothing is sent. -/
theorem km_focus_loss_reset (keys : List Nat) (h : keys ≠ []) :
    FocusEventProc keys false = ([], [USB_BufferClear]) ∧
    FocusEventProc [] false = ([], []) ∧
    (∀ ks : List Nat, FocusEventProc ks true = (ks, [])) := by
  refine ⟨?_, by simp [FocusEventProc], fun ks => by simp [FocusEventProc]⟩
  have : keys.length ≠ 0 := by
    intro hl; exact h (List.length_eq_zero.1 hl)
  simp [FocusEventProc, this]

/-- Witness for C3 with two pressed (mapped) keys 0x41 and 0x42. -/
theorem km_focus_loss_reset_witness :
    ([0x41, 0x42] : List Nat) ≠ [] ∧
    (FocusEventProc [0x41, 0x42] false = ([], [USB_BufferClear]) ∧
     FocusEventProc [] false = ([], []) ∧
     (∀ ks : List Nat, FocusEventProc ks true = (ks, []))) :=
  ⟨by decide, km_focus_loss_reset [0x41, 0x42] (by decide)⟩

/-- C7: a key whose make-code table entry is 0 still enters the list on
down and is erased on up, but neither transition emits any serial
emission, and duplicate-down suppression still applies to it. -/
theorem km_unmapped_key_silent (keys : List Nat) (id : Nat)
    (h : KeyToMakeCode id = 0) :
    (keyDownStep keys id).2 = [] ∧
    (keyUpStep keys id).2 = [] ∧
    (keyDownStep keys id).1 = (if id ∈ keys then keys else keys ++ [id]) ∧
    (keyUpStep keys id).1 = keys.erase id ∧
    (id ∈ keys → keyDownStep keys id = (keys, [])) := by
  refine ⟨?_, ?_, ?_, keyUpStep_fst_erase keys id, ?_⟩
  · by_cases hk : id ∈ keys <;> simp [keyDownStep, hk, h]
  · rw [keyUpStep_snd]
    by_cases hk : id ∈ keys <;> simp [hk, h]
  · by_cases hk : id ∈ keys <;> simp [keyDownStep, hk]
  · intro hk; simp [keyDownStep, hk]

/-- Witness for C7 at identifier 3 (`VK_CANCEL`, table entry 0). -/
theorem km_unmapped_key_silent_witness :
    KeyToMakeCode 3 = 0 ∧
    ((keyDownStep [5, 3] 3).2 = [] ∧
     (keyUpStep [5, 3] 3).2 = [] ∧
     (keyDownStep [5, 3] 3).1 = (if 3 ∈ ([5, 3] : List Nat) then [5, 3] else [5, 3] ++ [3]) ∧
     (keyUpStep [5, 3] 3).1 = ([5, 3] : List Nat).erase 3 ∧
     (3 ∈ ([5, 3] : List Nat) → keyDownStep [5, 3] 3 = ([5, 3], []))) :=
  ⟨by decide, km_unmapped_key_silent [5, 3] 3 (by decide)⟩

/-- C9: every make-code table value is 0 or lies in [1,127]; hence every
non-zero make code's break code `make + 128` lies in [129,255], fits in a
byte, and is distinguished from every make code by bit 7. -/
theorem km_make_code_range (vk : Nat) :
    (KeyToMakeCode vk = 0 ∨ (1 ≤ KeyToMakeCode vk ∧ KeyToMakeCode vk ≤ 127)) ∧
    (KeyToMakeCode vk ≠ 0 →
      129 ≤ KeyToMakeCode vk + USB_BREAK ∧ KeyToMakeCode vk + USB_BREAK ≤ 255 ∧
      Nat.testBit (KeyToMakeCode vk + USB_BREAK) 7 = true ∧
      Nat.testBit (KeyToMakeCode vk) 7 = false) := by
  have htab : ∀ c ∈ kmMakeCodeTable, c ≤ 127 := by
    set_option maxRecDepth 4096 in decide
  have hle : KeyToMakeCode vk ≤ 127 := by
    unfold KeyToMakeCode
    rcases Nat.lt_or_ge (vk % 256) kmMakeCodeTable.length with hlen | hlen
    · rw [List.getD_eq_getElem _ _ hlen]
      exact htab _ (List.getElem_mem _)
    · rw [List.getD_eq_default _ _ hlen]
      omega
  constructor
  · rcases Nat.eq_zero_or_pos (KeyToMakeCode vk) with h0 | h0
    · exact Or.inl h0
    · exact Or.inr ⟨h0, hle⟩
  · intro hne
    have h1 : 1 ≤ KeyToMakeCode vk := Nat.one_le_iff_ne_zero.2 hne
    refine ⟨by simp [USB_BREAK]; omega, by simp [USB_BREAK]; omega, ?_, ?_⟩
    · rw [Nat.testBit_to_div_mod]
      simp only [USB_BREAK]
      simp
      omega
    · exact Nat.testBit_lt_two_pow (by omega)

/-- Witness for C9 at virtual key 65 (`VK_A`, make code 31). -/
theorem km_make_code_range_witness :
    (KeyToMakeCode 65 = 0 ∨ (1 ≤ KeyToMakeCode 65 ∧ KeyToMakeCode 65 ≤ 127)) ∧
    KeyToMakeCode 65 ≠ 0 ∧
    (129 ≤ KeyToMakeCode 65 + USB_BREAK ∧ KeyToMakeCode 65 + USB_BREAK ≤ 255 ∧
     Nat.testBit (KeyToMakeCode 65 + USB_BREAK) 7 = true ∧
     Nat.testBit (KeyToMakeCode 65) 7 = false) :=
  ⟨(km_make_code_range 65).1, by decide, (km_make_code_range 65).2 (by decide)⟩

/-! Helper lemmas about the mouse move loop. -/

lemma count_single (x a : Nat) : ([a] : List Nat).count x = if x = a then 1 else 0 := by
  by_cases hxa : x = a <;> simp [hxa]

lemma stepToward_spec (t c : Int) :
    (c < t ∧ stepToward t c = c + 1) ∨ (t < c ∧ stepToward t c = c - 1) ∨
    (t = c ∧ stepToward t c = c) := by
  unfold stepToward
  split_ifs with h1 h2
  · exact Or.inl ⟨h1, rfl⟩
  · exact Or.inr (Or.inl ⟨h2, rfl⟩)
  · exact Or.inr (Or.inr ⟨by omega, rfl⟩)

lemma axisSends_spec (t c : Int) :
    (t = c ∧ axisSends t c = 0) ∨ (t ≠ c ∧ axisSends t c = 1) := by
  unfold axisSends
  split_ifs with h1
  · exact Or.inl ⟨h1, rfl⟩
  · exact Or.inr ⟨h1, rfl⟩

lemma stepToward_measure (t c : Int) :
    (t - stepToward t c).natAbs + axisSends t c = (t - c).natAbs := by
  unfold stepToward axisSends
  split_ifs <;> omega

lemma axisSends_pos (px py cmx cmy : Int) (h : ¬(px = cmx ∧ py = cmy)) :
    1 ≤ axisSends px cmx + axisSends py cmy := by
  unfold axisSends
  split_ifs with e1 e2
  · exact absurd ⟨e1, e2⟩ h
  all_goals omega

lemma xcmds_count_spec (t c : Int) :
    ((axisCmds t c USB_MouseRight USB_MouseLeft).count USB_MouseRight
       = if c < t then 1 else 0) ∧
    ((axisCmds t c USB_MouseRight USB_MouseLeft).count USB_MouseLeft
       = if t < c then 1 else 0) ∧
    ((axisCmds t c USB_MouseRight USB_MouseLeft).count USB_MouseDown = 0) ∧
    ((axisCmds t c USB_MouseRight USB_MouseLeft).count USB_MouseUp = 0) ∧
    ((axisCmds t c USB_MouseRight USB_MouseLeft).length = axisSends t c) := by
  unfold axisCmds axisSends
  split_ifs with h1 h2 <;>
    refine ⟨?_, ?_, ?_, ?_, ?_⟩ <;>
      simp [count_single, USB_MouseRight, USB_MouseLeft, USB_MouseDown, USB_MouseUp] <;>
      omega

lemma ycmds_count_spec (t c : Int) :
    ((axisCmds t c USB_MouseDown USB_MouseUp).count USB_MouseRight = 0) ∧
    ((axisCmds t c USB_MouseDown USB_MouseUp).count USB_MouseLeft = 0) ∧
    ((axisCmds t c USB_MouseDown USB_MouseUp).count USB_MouseDown
       = if c < t then 1 else 0) ∧
    ((axisCmds t c USB_MouseDown USB_MouseUp).count USB_MouseUp
       = if t < c then 1 else 0) ∧
    ((axisCmds t c USB_MouseDown USB_MouseUp).length = axisSends t c) := by
  unfold axisCmds axisSends
  split_ifs with h1 h2 <;>
    refine ⟨?_, ?_, ?_, ?_, ?_⟩ <;>
      simp [count_single, USB_MouseRight, USB_MouseLeft, USB_MouseDown, USB_MouseUp] <;>
      omega

/-- Arithmetic glue for one axis of one loop iteration: `t` target, `c`
reference before the step, `S` reference after the step, `A` final
reference value, `s` number of sends of the step. -/
lemma axis_glue (t c S A : Int) (s : Nat)
    (hst : (c < t ∧ S = c + 1) ∨ (t < c ∧ S = c - 1) ∨ (t = c ∧ S = c))
    (has : (t = c ∧ s = 0) ∨ (t ≠ c ∧ s = 1))
    (hja : (t - A).natAbs + (A - S).natAbs = (t - S).natAbs) :
    ((t - A).natAbs + (A - c).natAbs = (t - c).natAbs) ∧
    ((A - c).natAbs = (A - S).natAbs + s) ∧
    ((A - c).toNat = (A - S).toNat + (if c < t then 1 else 0)) ∧
    ((c - A).toNat = (S - A).toNat + (if t < c then 1 else 0)) := by
  rcases hst with ⟨h1, h2⟩ | ⟨h1, h2⟩ | ⟨h1, h2⟩ <;>
    rcases has with ⟨h3, h4⟩ | ⟨h3, h4⟩ <;>
      subst h2 <;> subst h4 <;>
        refine ⟨by omega, by omega, ?_, ?_⟩ <;> split_ifs <;> omega

lemma MouseMoveLoop_done (oracle : Nat → Int) (px py cmx cmy res : Int) (k : Nat)
    (h : px = cmx ∧ py = cmy) :
    MouseMoveLoop oracle px py cmx cmy res k = ⟨(cmx, cmy), [], k⟩ := by
  rw [MouseMoveLoop]; rw [dif_pos h]

lemma MouseMoveLoop_step (oracle : Nat → Int) (px py cmx cmy res : Int) (k : Nat)
    (h : ¬(px = cmx ∧ py = cmy)) :
    MouseMoveLoop oracle px py cmx cmy res k =
      if (if px = cmx then res else oracle k) < 0 then
        ⟨(stepToward px cmx, cmy), axisCmds px cmx USB_MouseRight USB_MouseLeft,
         k + axisSends px cmx⟩
      else
        if (if py = cmy then (if px = cmx then res else oracle k)
            else oracle (k + axisSends px cmx)) < 0 then
          ⟨(stepToward px cmx, stepToward py cmy),
           axisCmds px cmx USB_MouseRight USB_MouseLeft ++
             axisCmds py cmy USB_MouseDown USB_MouseUp,
           k + axisSends px cmx + axisSends py cmy⟩
        else
          ⟨(MouseMoveLoop oracle px py (stepToward px cmx) (stepToward py cmy)
              (if py = cmy then (if px = cmx then res else oracle k)
               else oracle (k + axisSends px cmx))
              (k + axisSends px cmx + axisSends py cmy)).cm,
           axisCmds px cmx USB_MouseRight USB_MouseLeft ++
             axisCmds py cmy USB_MouseDown USB_MouseUp ++
             (MouseMoveLoop oracle px py (stepToward px cmx) (stepToward py cmy)
               (if py = cmy then (if px = cmx then res else oracle k)
                else oracle (k + axisSends px cmx))
               (k + axisSends px cmx + axisSends py cmy)).sent,
           (MouseMoveLoop oracle px py (stepToward px cmx) (stepToward py cmy)
             (if py = cmy then (if px = cmx then res else oracle k)
              else oracle (k + axisSends px cmx))
             (k + axisSends px cmx + axisSends py cmy)).k⟩ := by
  rw [MouseMoveLoop]; rw [dif_neg h]

/-- Full behavioural invariant of the move loop, by induction on the
distance to the target: per-axis collinearity of the final reference
point, per-command counts equal to the directed displacement actually
applied, total command count equal to the total displacement, and, when
no send can report a timeout, the reference reaches the target. -/
lemma mouseMoveLoop_spec (oracle : Nat → Int) (px py : Int) :
    ∀ (N : Nat) (cmx cmy res : Int) (k : Nat),
      (px - cmx).natAbs + (py - cmy).natAbs ≤ N →
      ((px - (MouseMoveLoop oracle px py cmx cmy res k).cm.1).natAbs
         + ((MouseMoveLoop oracle px py cmx cmy res k).cm.1 - cmx).natAbs
         = (px - cmx).natAbs) ∧
      ((py - (MouseMoveLoop oracle px py cmx cmy res k).cm.2).natAbs
         + ((MouseMoveLoop oracle px py cmx cmy res k).cm.2 - cmy).natAbs
         = (py - cmy).natAbs) ∧
      ((MouseMoveLoop oracle px py cmx cmy res k).sent.count USB_MouseRight
         = ((MouseMoveLoop oracle px py cmx cmy res k).cm.1 - cmx).toNat) ∧
      ((MouseMoveLoop oracle px py cmx cmy res k).sent.count USB_MouseLeft
         = (cmx - (MouseMoveLoop oracle px py cmx cmy res k).cm.1).toNat) ∧
      ((MouseMoveLoop oracle px py cmx cmy res k).sent.count USB_MouseDown
         = ((MouseMoveLoop oracle px py cmx cmy res k).cm.2 - cmy).toNat) ∧
      ((MouseMoveLoop oracle px py cmx cmy res k).sent.count USB_MouseUp
         = (cmy - (MouseMoveLoop oracle px py cmx cmy res k).cm.2).toNat) ∧
      ((MouseMoveLoop oracle px py cmx cmy res k).sent.length
         = ((MouseMoveLoop oracle px py cmx cmy res k).cm.1 - cmx).natAbs
           + ((MouseMoveLoop oracle px py cmx cmy res k).cm.2 - cmy).natAbs) ∧
      (0 ≤ res → (∀ n, 0 ≤ oracle n) →
        (MouseMoveLoop oracle px py cmx cmy res k).cm = (px, py)) := by
  intro N
  induction N with
  | zero =>
    intro cmx cmy res k hN
    have hx : px = cmx := by omega
    have hy : py = cmy := by omega
    rw [MouseMoveLoop_done oracle px py cmx cmy res k ⟨hx, hy⟩]
    simp [hx, hy]
  | succ n ih =>
    intro cmx cmy res k hN
    by_cases h : px = cmx ∧ py = cmy
    · rw [MouseMoveLoop_done oracle px py cmx cmy res k h]
      obtain ⟨hx, hy⟩ := h
      simp [hx, hy]
    · rw [MouseMoveLoop_step oracle px py cmx cmy res k h]
      by_cases hrx : (if px = cmx then res else oracle k) < 0
      · rw [if_pos hrx]
        dsimp only
        obtain ⟨g1, g2, g3, g4⟩ := axis_glue px cmx (stepToward px cmx)
          (stepToward px cmx) (axisSends px cmx)
          (stepToward_spec px cmx) (axisSends_spec px cmx) (by omega)
        obtain ⟨x1, x2, x3, x4, x5⟩ := xcmds_count_spec px cmx
        refine ⟨g1, by omega, ?_, ?_, ?_, ?_, ?_, ?_⟩
        · simp only [x1]; omega
        · simp only [x2]; omega
        · simp only [x3]; omega
        · simp only [x4]; omega
        · simp only [x5]; omega
        · intro hr hO
          refine absurd hrx (not_lt.2 ?_)
          split_ifs
          · exact hr
          · exact hO k
      · rw [if_neg hrx]
        by_cases hry : (if py = cmy then (if px = cmx then res else oracle k)
            else oracle (k + axisSends px cmx)) < 0
        · rw [if_pos hry]
          dsimp only
          obtain ⟨g1, g2, g3, g4⟩ := axis_glue px cmx (stepToward px cmx)
            (stepToward px cmx) (axisSends px cmx)
            (stepToward_spec px cmx) (axisSends_spec px cmx) (by omega)
          obtain ⟨k1, k2, k3, k4⟩ := axis_glue py cmy (stepToward py cmy)
            (stepToward py cmy) (axisSends py cmy)
            (stepToward_spec py cmy) (axisSends_spec py cmy) (by omega)
          obtain ⟨x1, x2, x3, x4, x5⟩ := xcmds_count_spec px cmx
          obtain ⟨y1, y2, y3, y4, y5⟩ := ycmds_count_spec py cmy
          refine ⟨g1, k1, ?_, ?_, ?_, ?_, ?_, ?_⟩
          · simp only [List.count_append, x1, y1]; omega
          · simp only [List.count_append, x2, y2]; omega
          · simp only [List.count_append, x3, y3]; omega
          · simp only [List.count_append, x4, y4]; omega
          · simp only [List.length_append, x5, y5]; omega
          · intro hr hO
            refine absurd hry (not_lt.2 ?_)
            split_ifs
            · exact hr
            · exact hO k
            · exact hO _
        · rw [if_neg hry]
          dsimp only
          have hs1 := stepToward_measure px cmx
          have hs2 := stepToward_measure py cmy
          have hpos := axisSends_pos px py cmx cmy h
          obtain ⟨ja, jb, jr, jl, jd, ju, jlen, jcm⟩ :=
            ih (stepToward px cmx) (stepToward py cmy)
              (if py = cmy then (if px = cmx then res else oracle k)
               else oracle (k + axisSends px cmx))
              (k + axisSends px cmx + axisSends py cmy) (by omega)
          clear hs1 hs2 hpos
          obtain ⟨g1, g2, g3, g4⟩ := axis_glue px cmx (stepToward px cmx)
            (MouseMoveLoop oracle px py (stepToward px cmx) (stepToward py cmy)
              (if py = cmy then (if px = cmx then res else oracle k)
               else oracle (k + axisSends px cmx))
              (k + axisSends px cmx + axisSends py cmy)).cm.1 (axisSends px cmx)
            (stepToward_spec px cmx) (axisSends_spec px cmx) ja
          obtain ⟨k1, k2, k3, k4⟩ := axis_glue py cmy (stepToward py cmy)
            (MouseMoveLoop oracle px py (stepToward px cmx) (stepToward py cmy)
              (if py = cmy then (if px = cmx then res else oracle k)
               else oracle (k + axisSends px cmx))
              (k + axisSends px cmx + axisSends py cmy)).cm.2 (axisSends py cmy)
            (stepToward_spec py cmy) (axisSends_spec py cmy) jb
          obtain ⟨x1, x2, x3, x4, x5⟩ := xcmds_count_spec px cmx
          obtain ⟨y1, y2, y3, y4, y5⟩ := ycmds_count_spec py cmy
          refine ⟨g1, k1, ?_, ?_, ?_, ?_, ?_, ?_⟩
          · simp only [List.count_append, x1, y1, jr]; omega
          · simp only [List.count_append, x2, y2, jl]; omega
          · simp only [List.count_append, x3, y3, jd]; omega
          · simp only [List.count_append, x4, y4, ju]; omega
          · simp only [List.length_append, x5, y5, jlen]; omega
          · intro hr hO
            refine jcm ?_ hO
            split_ifs
            · exact hr
            · exact hO k
            · exact hO _

/-! Claim theorems for the mouse handlers and the handshake. -/

/-- C4: with tracking enabled and no timeouts, a move from reference
(10,10) to cursor (13,8) emits exactly 3 `USB_MouseRight` and 2
`USB_MouseUp` and leaves the reference at (13,8); in general the loop
emits one unit-step command per axis per unit of delta and reaches the
cursor position. -/
theorem km_move_emission (oracle : Nat → Int) (res : Int) (k : Nat)
    (hO : ∀ n, 0 ≤ oracle n) (hres : 0 ≤ res) :
    (∀ (px py cmx cmy : Int) (k0 : Nat),
      (MouseMoveLoop oracle px py cmx cmy res k0).cm = (px, py) ∧
      (MouseMoveLoop oracle px py cmx cmy res k0).sent.count USB_MouseRight
        = (px - cmx).toNat ∧
      (MouseMoveLoop oracle px py cmx cmy res k0).sent.count USB_MouseLeft
        = (cmx - px).toNat ∧
      (MouseMoveLoop oracle px py cmx cmy res k0).sent.count USB_MouseDown
        = (py - cmy).toNat ∧
      (MouseMoveLoop oracle px py cmx cmy res k0).sent.count USB_MouseUp
        = (cmy - py).toNat) ∧
    ((MouseMoveProc oracle ⟨10, 10, true, false⟩ 13 8 res k).2.count USB_MouseRight = 3 ∧
     (MouseMoveProc oracle ⟨10, 10, true, false⟩ 13 8 res k).2.count USB_MouseUp = 2 ∧
     (MouseMoveProc oracle ⟨10, 10, true, false⟩ 13 8 res k).1.currentMouseX = 13 ∧
     (MouseMoveProc oracle ⟨10, 10, true, false⟩ 13 8 res k).1.currentMouseY = 8) := by
  have main : ∀ (px py cmx cmy : Int) (k0 : Nat),
      (MouseMoveLoop oracle px py cmx cmy res k0).cm = (px, py) ∧
      (MouseMoveLoop oracle px py cmx cmy res k0).sent.count USB_MouseRight
        = (px - cmx).toNat ∧
      (MouseMoveLoop oracle px py cmx cmy res k0).sent.count USB_MouseLeft
        = (cmx - px).toNat ∧
      (MouseMoveLoop oracle px py cmx cmy res k0).sent.count USB_MouseDown
        = (py - cmy).toNat ∧
      (MouseMoveLoop oracle px py cmx cmy res k0).sent.count USB_MouseUp
        = (cmy - py).toNat := by
    intro px py cmx cmy k0
    obtain ⟨-, -, jr, jl, jd, ju, -, jcm⟩ :=
      mouseMoveLoop_spec oracle px py ((px - cmx).natAbs + (py - cmy).natAbs)
        cmx cmy res k0 le_rfl
    have hcm := jcm hres hO
    refine ⟨hcm, ?_, ?_, ?_, ?_⟩ <;> simp [jr, jl, jd, ju, hcm]
  refine ⟨main, ?_⟩
  obtain ⟨hcm, hr, hl, hd, hu⟩ := main 13 8 10 10 k
  refine ⟨?_, ?_, ?_, ?_⟩ <;> simp [MouseMoveProc, hcm, hr, hu]

/-- Witness for C4 with the all-zero response oracle. -/
theorem km_move_emission_witness :
    (∀ n : Nat, (0:Int) ≤ (fun _ : Nat => (0:Int)) n) ∧ ((0:Int) ≤ 0) ∧
    ((MouseMoveProc (fun _ => 0) ⟨10, 10, true, false⟩ 13 8 0 0).2.count USB_MouseRight = 3 ∧
     (MouseMoveProc (fun _ => 0) ⟨10, 10, true, false⟩ 13 8 0 0).2.count USB_MouseUp = 2 ∧
     (MouseMoveProc (fun _ => 0) ⟨10, 10, true, false⟩ 13 8 0 0).1.currentMouseX = 13 ∧
     (MouseMoveProc (fun _ => 0) ⟨10, 10, true, false⟩ 13 8 0 0).1.currentMouseY = 8) :=
  ⟨fun _ => le_refl 0, le_refl 0,
   (km_move_emission (fun _ => 0) 0 0 (fun _ => le_refl 0) (le_refl 0)).2⟩

/-- C10: the move loop always terminates with at most
|dx| + |dy| emitted motion commands, whatever the oracle replies. -/
theorem km_move_loop_bounded (oracle : Nat → Int) (px py cmx cmy res : Int) (k : Nat) :
    (MouseMoveLoop oracle px py cmx cmy res k).sent.length
      ≤ (px - cmx).natAbs + (py - cmy).natAbs := by
  obtain ⟨ja, jb, -, -, -, -, jlen, -⟩ :=
    mouseMoveLoop_spec oracle px py ((px - cmx).natAbs + (py - cmy).natAbs)
      cmx cmy res k le_rfl
  omega

/-- Response oracle whose first send succeeds and whose second times out. -/
def c5oracle : Nat → Int := fun n => if n = 0 then 0 else -1

/-- C5 counterexample: moving from reference (10,10) toward cursor (15,10)
needs 5 commands; with a timeout on the 2nd send, the loop stops after two
commands with the reference advanced by two units — (12,10), not the
(11,10) the claim's "1 unit actually applied" example predicts, because
the reference is stepped before each send, including the timed-out one. -/
theorem km_move_timeout_cex :
    (MouseMoveLoop c5oracle 15 10 10 10 0 0).sent = [USB_MouseRight, USB_MouseRight] ∧
    (MouseMoveLoop c5oracle 15 10 10 10 0 0).cm = (12, 10) ∧
    (MouseMoveLoop c5oracle 15 10 10 10 0 0).cm ≠ (11, 10) := by
  refine ⟨?_, ?_, ?_⟩ <;>
    simp [MouseMoveLoop, stepToward, axisCmds, axisSends, c5oracle, USB_MouseRight]

/-- C5 as amended: a timeout stops the loop at once, and the reference
point afterwards reflects exactly the units of the commands actually
written — including the command whose response timed out, since the
reference is stepped before each send; a timeout on the 2nd of 5 required
commands therefore leaves the reference advanced by exactly 2 units. -/
theorem km_move_timeout_partial :
    (∀ (oracle : Nat → Int) (px py cmx cmy res : Int) (k : Nat),
      ((MouseMoveLoop oracle px py cmx cmy res k).sent.count USB_MouseRight
         + (MouseMoveLoop oracle px py cmx cmy res k).sent.count USB_MouseLeft
         = ((MouseMoveLoop oracle px py cmx cmy res k).cm.1 - cmx).natAbs) ∧
      ((MouseMoveLoop oracle px py cmx cmy res k).sent.count USB_MouseDown
         + (MouseMoveLoop oracle px py cmx cmy res k).sent.count USB_MouseUp
         = ((MouseMoveLoop oracle px py cmx cmy res k).cm.2 - cmy).natAbs) ∧
      ((MouseMoveLoop oracle px py cmx cmy res k).sent.length
         = ((MouseMoveLoop oracle px py cmx cmy res k).cm.1 - cmx).natAbs
           + ((MouseMoveLoop oracle px py cmx cmy res k).cm.2 - cmy).natAbs)) ∧
    ((MouseMoveLoop c5oracle 15 10 10 10 0 0).sent.length = 2 ∧
     (MouseMoveLoop c5oracle 15 10 10 10 0 0).cm = (12, 10)) := by
  constructor
  · intro oracle px py cmx cmy res k
    obtain ⟨-, -, jr, jl, jd, ju, jlen, -⟩ :=
      mouseMoveLoop_spec oracle px py ((px - cmx).natAbs + (py - cmy).natAbs)
        cmx cmy res k le_rfl
    refine ⟨?_, ?_, jlen⟩ <;> omega
  · constructor <;>
      simp [MouseMoveLoop, stepToward, axisCmds, axisSends, c5oracle, USB_MouseRight]

/-- Response oracle whose first send succeeds and whose second returns
0x20, outside the live range. -/
def c6oracle : Nat → Int := fun n => if n = 0 then 0 else 0x20

/-- C6 counterexample: a status reply of 0x20 leaves `InitSerialPort`
printing nothing at all: the device is not classified (and in particular
not reported) as "not responding". -/
theorem km_handshake_cex :
    (InitHandshake c6oracle).2 = 0x20 ∧
    handshakeReport (InitHandshake c6oracle).2 = HandshakeReport.silent ∧
    handshakeReport (InitHandshake c6oracle).2 ≠ HandshakeReport.noResponse := by
  refine ⟨?_, ?_, ?_⟩ <;> decide

/-- C6 as amended: a status reply in [0x30,0x37] is classified live; a
timeout (negative result) at either handshake step is classified and
reported as not responding; but a non-negative reply outside the range
produces no classification message at all (silence, not a "not
responding" report); in all cases the handshake function returns. -/
theorem km_handshake_classification (oracle : Nat → Int) :
    (0 ≤ oracle 0 → 0x30 ≤ oracle 1 → oracle 1 ≤ 0x37 →
      handshakeReport (InitHandshake oracle).2 = HandshakeReport.live ∧
      (InitHandshake oracle).1 = [USB_BufferClear, USB_StatusLEDRead]) ∧
    (oracle 0 < 0 →
      handshakeReport (InitHandshake oracle).2 = HandshakeReport.noResponse ∧
      (InitHandshake oracle).1 = [USB_BufferClear]) ∧
    (0 ≤ oracle 0 → oracle 1 < 0 →
      handshakeReport (InitHandshake oracle).2 = HandshakeReport.noResponse) ∧
    (0 ≤ oracle 0 → 0 ≤ oracle 1 → ¬(0x30 ≤ oracle 1 ∧ oracle 1 ≤ 0x37) →
      handshakeReport (InitHandshake oracle).2 = HandshakeReport.silent) := by
  refine ⟨?_, ?_, ?_, ?_⟩
  · intro h0 h1 h2
    have h3 : (0:Int) ≤ oracle 1 := by omega
    simp [InitHandshake, handshakeReport, h0, h1, h2, h3]
  · intro h0
    have h3 : ¬ (0:Int) ≤ oracle 0 := not_le.2 h0
    simp [InitHandshake, handshakeReport, h3]
  · intro h0 h1
    have h3 : ¬ (0:Int) ≤ oracle 1 := not_le.2 h1
    simp [InitHandshake, handshakeReport, h0, h3]
  · intro h0 h1 h2
    simp [InitHandshake, handshakeReport, h0, h1, h2]

/-- Handshake oracle replying 0x33 to every command. -/
def hsOracleLive : Nat → Int := fun _ => 0x33

/-- Witness for C6 (amended) at a live reply 0x33. -/
theorem km_handshake_classification_witness :
    ((0:Int) ≤ hsOracleLive 0 ∧ 0x30 ≤ hsOracleLive 1 ∧ hsOracleLive 1 ≤ 0x37) ∧
    handshakeReport (InitHandshake hsOracleLive).2 = HandshakeReport.live ∧
    (InitHandshake hsOracleLive).1 = [USB_BufferClear, USB_StatusLEDRead] :=
  ⟨by refine ⟨by decide, by decide, by decide⟩,
   ((km_handshake_classification hsOracleLive).1 (by decide) (by decide) (by decide)).1,
   ((km_handshake_classification hsOracleLive).1 (by decide) (by decide) (by decide)).2⟩

/-- C8 counterexample: with `button0` already latched (the primary bit was
high at the previous event), another button event whose primary bit is
still high — not a low-to-high transition — re-sends the make command
`USB_MouseLeftButton`. -/
theorem km_button_cex :
    (MouseButtonProc ⟨0, 0, false, true⟩ 0 0 1).2 = [USB_MouseLeftButton] ∧
    (MouseButtonProc ⟨0, 0, false, true⟩ 0 0 1).1.button0 = true := by
  constructor <;> decide

/-- C8 as amended: the make command is sent on every button-state event
whose primary bit is high (so repeated events with the bit held re-send
it); the break command is sent exactly when the bit is low and
`button0` is latched; `button0` afterwards equals the primary bit. -/
theorem km_button_latch (s : MouseState) (cx cy : Int) (mask : Nat) :
    ((mask &&& FROM_LEFT_1ST_BUTTON_PRESSED ≠ 0) →
      (MouseButtonProc s cx cy mask).2 = [USB_MouseLeftButton] ∧
      (MouseButtonProc s cx cy mask).1.button0 = true) ∧
    (mask &&& FROM_LEFT_1ST_BUTTON_PRESSED = 0 → s.button0 = true →
      (MouseButtonProc s cx cy mask).2 = [USB_MouseLeftButton + USB_BREAK] ∧
      (MouseButtonProc s cx cy mask).1.button0 = false) ∧
    (mask &&& FROM_LEFT_1ST_BUTTON_PRESSED = 0 → s.button0 = false →
      (MouseButtonProc s cx cy mask).2 = [] ∧
      (MouseButtonProc s cx cy mask).1.button0 = false) := by
  refine ⟨?_, ?_, ?_⟩
  · intro h1
    by_cases h2 : mask &&& RIGHTMOST_BUTTON_PRESSED ≠ 0 <;>
      simp [MouseButtonProc, h1, h2]
  · intro h1 hb
    by_cases h2 : mask &&& RIGHTMOST_BUTTON_PRESSED ≠ 0 <;>
      simp [MouseButtonProc, h1, hb, h2]
  · intro h1 hb
    by_cases h2 : mask &&& RIGHTMOST_BUTTON_PRESSED ≠ 0 <;>
      simp [MouseButtonProc, h1, hb, h2]

/-- Witness for C8 (amended): a press event from the unlatched state. -/
theorem km_button_latch_witness :
    ((1 : Nat) &&& FROM_LEFT_1ST_BUTTON_PRESSED ≠ 0) ∧
    ((MouseButtonProc ⟨0, 0, false, false⟩ 0 0 1).2 = [USB_MouseLeftButton] ∧
     (MouseButtonProc ⟨0, 0, false, false⟩ 0 0 1).1.button0 = true) :=
  ⟨by decide, (km_button_latch ⟨0, 0, false, false⟩ 0 0 1).1 (by decide)⟩

end KM232
